import Mathlib

/-!
# Verification of the fiber-webdav WebDAV server core

A shallow embedding of the repository's lock manager (`locks.go`), the
local file-system backend (`fs_local.go`) and the HTTP backend glue
(`server.go`, and the `Handler` in the unnamed handler file), together
with theorems settling the specification claims about them.

Go maps are embedded as association lists (`List (κ × α)`) whose keys are
kept distinct; Go slices as `List`; `time.Time`/`time.Duration` as `Int`
(nanosecond instants and durations); fallible Go calls as `Except`/`Option`
results paired with the successor state.
-/

deriving instance DecidableEq for Except

namespace FiberWebdav

/-! ## Association-list operations (the embedding of Go maps) -/

variable {κ : Type} {α : Type} [DecidableEq κ]

/-- Lookup in an association list: the Go map read `m[k]`. -/
def lookupA (k : κ) : List (κ × α) → Option α
  | [] => none
  | e :: rest => if e.1 = k then some e.2 else lookupA k rest

/-- Remove every binding of key `k`: the Go `delete(m, k)`. -/
def eraseA (k : κ) : List (κ × α) → List (κ × α)
  | [] => []
  | e :: rest => if e.1 = k then eraseA k rest else e :: eraseA k rest

/-- Overwriting insert: the Go map write `m[k] = v`. -/
def insertA (k : κ) (v : α) (l : List (κ × α)) : List (κ × α) :=
  (k, v) :: eraseA k l

/-- The keys of the association list are pairwise distinct (true of every
Go map embedding). -/
abbrev NodupKeys (l : List (κ × α)) : Prop :=
  (l.map Prod.fst).Nodup

theorem lookupA_eq_none_iff {k : κ} {l : List (κ × α)} :
    lookupA k l = none ↔ ∀ e ∈ l, e.1 ≠ k := by
  induction l with
  | nil => simp [lookupA]
  | cons e rest ih =>
    simp only [lookupA, List.mem_cons]
    by_cases h : e.1 = k
    · simp [h]
    · simp [h, ih]

theorem mem_of_lookupA_eq_some {k : κ} {v : α} {l : List (κ × α)}
    (h : lookupA k l = some v) : (k, v) ∈ l := by
  induction l with
  | nil => simp [lookupA] at h
  | cons e rest ih =>
    simp only [lookupA] at h
    by_cases he : e.1 = k
    · rw [if_pos he] at h
      cases e with
      | mk a b =>
        simp only at he h
        subst he
        rw [Option.some.injEq] at h
        subst h
        exact List.mem_cons_self _ _
    · simp only [if_neg he] at h
      exact List.mem_cons_of_mem _ (ih h)

theorem lookupA_eq_some_of_mem {l : List (κ × α)} (hnk : NodupKeys l)
    {e : κ × α} (he : e ∈ l) : lookupA e.1 l = some e.2 := by
  induction l with
  | nil => simp at he
  | cons f rest ih =>
    rcases List.mem_cons.mp he with h | h
    · subst h; simp [lookupA]
    · have hne : f.1 ≠ e.1 := by
        intro hc
        have : e.1 ∈ rest.map Prod.fst := List.mem_map_of_mem _ h
        rw [← hc] at this
        exact (List.nodup_cons.mp hnk).1 this
      have : NodupKeys rest := (List.nodup_cons.mp hnk).2
      simp [lookupA, hne, ih this h]

theorem value_eq_of_nodupKeys {l : List (κ × α)} (hnk : NodupKeys l)
    {k : κ} {v w : α} (hv : (k, v) ∈ l) (hw : (k, w) ∈ l) : v = w := by
  have h1 := lookupA_eq_some_of_mem hnk hv
  have h2 := lookupA_eq_some_of_mem hnk hw
  simp only at h1 h2
  rw [h1] at h2
  exact (Option.some.injEq _ _).mp h2

theorem mem_eraseA {k : κ} {l : List (κ × α)} {e : κ × α}
    (h : e ∈ eraseA k l) : e ∈ l ∧ e.1 ≠ k := by
  induction l with
  | nil => simp [eraseA] at h
  | cons f rest ih =>
    simp only [eraseA] at h
    by_cases hf : f.1 = k
    · simp only [if_pos hf] at h
      exact ⟨List.mem_cons_of_mem _ (ih h).1, (ih h).2⟩
    · simp only [if_neg hf, List.mem_cons] at h
      rcases h with h | h
      · subst h; exact ⟨List.mem_cons_self _ _, hf⟩
      · exact ⟨List.mem_cons_of_mem _ (ih h).1, (ih h).2⟩

theorem mem_eraseA_of_mem {k : κ} {l : List (κ × α)} {e : κ × α}
    (he : e ∈ l) (hne : e.1 ≠ k) : e ∈ eraseA k l := by
  induction l with
  | nil => simp at he
  | cons f rest ih =>
    simp only [eraseA]
    rcases List.mem_cons.mp he with h | h
    · subst h; simp [if_neg hne]
    · by_cases hf : f.1 = k
      · simp [if_pos hf, ih h]
      · simp [if_neg hf, List.mem_cons, ih h]

theorem lookupA_eraseA_self (k : κ) (l : List (κ × α)) :
    lookupA k (eraseA k l) = none := by
  rw [lookupA_eq_none_iff]
  intro e he
  exact (mem_eraseA he).2

theorem lookupA_eraseA_ne {k k' : κ} (h : k ≠ k') (l : List (κ × α)) :
    lookupA k' (eraseA k l) = lookupA k' l := by
  induction l with
  | nil => simp [eraseA]
  | cons f rest ih =>
    simp only [eraseA, lookupA]
    by_cases hf : f.1 = k
    · have : f.1 ≠ k' := by rw [hf]; exact h
      simp [if_pos hf, lookupA, if_neg this, ih]
    · simp only [if_neg hf, lookupA]
      by_cases hf' : f.1 = k'
      · simp [if_pos hf']
      · simp [if_neg hf', ih]

theorem lookupA_insertA_self (k : κ) (v : α) (l : List (κ × α)) :
    lookupA k (insertA k v l) = some v := by
  simp [insertA, lookupA]

theorem lookupA_insertA_ne {k k' : κ} (h : k ≠ k') (v : α) (l : List (κ × α)) :
    lookupA k' (insertA k v l) = lookupA k' l := by
  simp [insertA, lookupA, if_neg h, lookupA_eraseA_ne h]

theorem mem_insertA {k : κ} {v : α} {l : List (κ × α)} {e : κ × α}
    (h : e ∈ insertA k v l) : e = (k, v) ∨ (e ∈ l ∧ e.1 ≠ k) := by
  simp only [insertA, List.mem_cons] at h
  rcases h with h | h
  · exact Or.inl h
  · exact Or.inr (mem_eraseA h)

theorem nodupKeys_eraseA (k : κ) {l : List (κ × α)} (h : NodupKeys l) :
    NodupKeys (eraseA k l) := by
  induction l with
  | nil => simp [eraseA, NodupKeys]
  | cons f rest ih =>
    have h1 := (List.nodup_cons.mp h).1
    have h2 := (List.nodup_cons.mp h).2
    simp only [eraseA]
    by_cases hf : f.1 = k
    · simpa [if_pos hf] using ih h2
    · simp only [if_neg hf]
      refine List.nodup_cons.mpr ⟨?_, ih h2⟩
      intro hc
      rcases List.mem_map.mp hc with ⟨e, he, heq⟩
      exact h1 (List.mem_map.mpr ⟨e, (mem_eraseA he).1, heq⟩)

theorem nodupKeys_insertA (k : κ) (v : α) {l : List (κ × α)} (h : NodupKeys l) :
    NodupKeys (insertA k v l) := by
  refine List.nodup_cons.mpr ⟨?_, nodupKeys_eraseA k h⟩
  intro hc
  rcases List.mem_map.mp hc with ⟨e, he, heq⟩
  exact (mem_eraseA he).2 heq

theorem eraseA_eq_self_of_lookupA_none {k : κ} {l : List (κ × α)}
    (h : lookupA k l = none) : eraseA k l = l := by
  induction l with
  | nil => simp [eraseA]
  | cons f rest ih =>
    simp only [lookupA] at h
    by_cases hf : f.1 = k
    · simp [if_pos hf] at h
    · simp only [if_neg hf] at h
      simp [eraseA, if_neg hf, ih h]

theorem lookupA_eraseA_of_none {k k' : κ} {l : List (κ × α)}
    (h : lookupA k' l = none) : lookupA k' (eraseA k l) = none := by
  rw [lookupA_eq_none_iff] at h ⊢
  intro e he
  exact h e (mem_eraseA he).1

/-- Remove the first occurrence of `t`: the Go slice surgery
`append(tokens[:i], tokens[i+1:]...)` guarded by `break`. -/
def removeFirst (t : String) : List String → List String
  | [] => []
  | x :: xs => if x = t then xs else x :: removeFirst t xs

theorem removeFirst_eq_self_of_not_mem {t : String} {l : List String}
    (h : t ∉ l) : removeFirst t l = l := by
  induction l with
  | nil => rfl
  | cons x xs ih =>
    have hx : x ≠ t := fun hc => h (hc ▸ List.mem_cons_self x xs)
    have hxs : t ∉ xs := fun hc => h (List.mem_cons_of_mem _ hc)
    simp [removeFirst, if_neg hx, ih hxs]

theorem mem_removeFirst_of_mem_ne {t s : String} {l : List String}
    (hs : s ∈ l) (hne : s ≠ t) : s ∈ removeFirst t l := by
  induction l with
  | nil => simp at hs
  | cons x xs ih =>
    simp only [removeFirst]
    by_cases hx : x = t
    · simp only [if_pos hx]
      rcases List.mem_cons.mp hs with h | h
      · exact absurd (h.trans hx) hne
      · exact h
    · simp only [if_neg hx, List.mem_cons]
      rcases List.mem_cons.mp hs with h | h
      · exact Or.inl h
      · exact Or.inr (ih h)

theorem mem_of_mem_removeFirst {t s : String} {l : List String}
    (hs : s ∈ removeFirst t l) : s ∈ l := by
  induction l with
  | nil => simp [removeFirst] at hs
  | cons x xs ih =>
    simp only [removeFirst] at hs
    by_cases hx : x = t
    · simp only [if_pos hx] at hs
      exact List.mem_cons_of_mem _ hs
    · simp only [if_neg hx, List.mem_cons] at hs
      rcases hs with h | h
      · exact h ▸ List.mem_cons_self x xs
      · exact List.mem_cons_of_mem _ (ih h)

theorem not_mem_removeFirst_of_nodup {t : String} {l : List String}
    (hnd : l.Nodup) : t ∉ removeFirst t l := by
  induction l with
  | nil => simp [removeFirst]
  | cons x xs ih =>
    have h1 := (List.nodup_cons.mp hnd).1
    have h2 := (List.nodup_cons.mp hnd).2
    simp only [removeFirst]
    by_cases hx : x = t
    · simp only [if_pos hx]
      exact fun hc => h1 (hx ▸ hc)
    · simp only [if_neg hx, List.mem_cons]
      rintro (h | h)
      · exact hx h.symm
      · exact ih h2 h

theorem nodup_removeFirst {t : String} {l : List String} (hnd : l.Nodup) :
    (removeFirst t l).Nodup := by
  induction l with
  | nil => simp [removeFirst]
  | cons x xs ih =>
    have h1 := (List.nodup_cons.mp hnd).1
    have h2 := (List.nodup_cons.mp hnd).2
    simp only [removeFirst]
    by_cases hx : x = t
    · simpa [if_pos hx] using h2
    · simp only [if_neg hx]
      refine List.nodup_cons.mpr ⟨?_, ih h2⟩
      intro hc
      exact h1 (mem_of_mem_removeFirst hc)

/-! ## The lock manager (`locks.go`)

`LockSystem` holds two Go maps: `locks : token → lockInfo` and
`paths : path → []token`.  `time.Time` instants and `time.Duration`
values are both embedded as `Int` (nanoseconds); `time.Now()` becomes an
explicit `now` argument, and the token minted by `generateToken()`
becomes an explicit `newToken` argument. -/

/-- `lockInfo` from `locks.go`. -/
structure LockInfo where
  token : String
  root : String
  created : Int
  timeout : Int
deriving DecidableEq, Repr

/-- The two indices of `LockSystem` from `locks.go`. -/
structure LockSystem where
  locks : List (String × LockInfo)
  paths : List (String × List String)
deriving DecidableEq, Repr

/-- The `internal.Lock` value returned by `LockSystem.Lock`. -/
structure WebLock where
  href : String
  root : String
  timeout : Int
deriving DecidableEq, Repr

/-- Errors returned by the lock manager: `HTTPErrorf(http.StatusLocked, …)`
and `HTTPErrorf(http.StatusPreconditionFailed, …)`. -/
inductive LockErr where
  | locked423
  | precondFailed412
deriving DecidableEq, Repr

/-- The token slice the path index holds for `p` (`ls.paths[path]`; a Go
read of an absent key yields the empty slice). -/
def tokensAt (ls : LockSystem) (p : String) : List String :=
  (lookupA p ls.paths).getD []

/-- `LockSystem.Lock` from `locks.go`: refresh an existing lock when
`refreshToken` is non-empty, otherwise reject with 423 when the exact
request path already has a token, otherwise mint and insert a new lock.
Returns the `(lock, created, err)` triple and the successor state. -/
def lsLock (ls : LockSystem) (path : String) (now timeout : Int)
    (refreshToken : String) (newToken : String) :
    Except LockErr (WebLock × Bool) × LockSystem :=
  if refreshToken ≠ "" then
    match lookupA refreshToken ls.locks with
    | none => (.error .precondFailed412, ls)
    | some lock =>
      let lock' : LockInfo := { lock with timeout := timeout, created := now }
      (.ok ({ href := lock'.token, root := lock'.root, timeout := lock'.timeout }, false),
       { ls with locks := insertA refreshToken lock' ls.locks })
  else
    if tokensAt ls path ≠ [] then
      (.error .locked423, ls)
    else
      let lock : LockInfo := { token := newToken, root := path, created := now, timeout := timeout }
      (.ok ({ href := newToken, root := path, timeout := timeout }, true),
       { locks := insertA newToken lock ls.locks,
         paths := insertA path (tokensAt ls path ++ [newToken]) ls.paths })

/-- Remove the binding for `root` in the path index after taking `tok`
out of its slice, deleting the key when the slice becomes empty — the
shared removal code of `LockSystem.Unlock` and `CleanExpiredLocks`. -/
def removeTokenFromPaths (paths : List (String × List String)) (root tok : String) :
    List (String × List String) :=
  let ts := (lookupA root paths).getD []
  let tsr := removeFirst tok ts
  if tsr = [] then eraseA root paths else insertA root tsr paths

/-- Remove the lock record `tok` (whose recorded root is `root`) from
both indices. -/
def removeLock (ls : LockSystem) (tok root : String) : LockSystem :=
  { locks := eraseA tok ls.locks,
    paths := removeTokenFromPaths ls.paths root tok }

/-- `LockSystem.Unlock` from `locks.go`: 412 when the token is unknown,
otherwise remove the lock from both indices. -/
def lsUnlock (ls : LockSystem) (tokenHref : String) :
    Option LockErr × LockSystem :=
  match lookupA tokenHref ls.locks with
  | none => (some .precondFailed412, ls)
  | some lock => (none, removeLock ls tokenHref lock.root)

/-- The expiry test of `CleanExpiredLocks`: infinite locks
(`Timeout == 0`) are skipped, others expire when `now - Created > Timeout`. -/
def expiredLockInfo (now : Int) (lock : LockInfo) : Bool :=
  lock.timeout ≠ 0 && now - lock.created > lock.timeout

/-- One iteration of the `CleanExpiredLocks` loop body. -/
def cleanStep (now : Int) (ls : LockSystem) (e : String × LockInfo) : LockSystem :=
  if expiredLockInfo now e.2 then removeLock ls e.1 e.2.root else ls

/-- `LockSystem.CleanExpiredLocks` from `locks.go`: sweep the token map,
removing every expired record from both indices.  The Go `range` visits
the map's entries; the embedding folds over the entry list. -/
def lsClean (now : Int) (ls : LockSystem) : LockSystem :=
  ls.locks.foldl (cleanStep now) ls

/-! ### Unfolding equations for the lock operations -/

theorem lsLock_refresh_found (ls : LockSystem) (p : String) (now tmo : Int)
    (rt tok : String) (hrt : rt ≠ "") {li : LockInfo}
    (hli : lookupA rt ls.locks = some li) :
    lsLock ls p now tmo rt tok =
      (.ok ({ href := li.token, root := li.root, timeout := tmo }, false),
       { ls with locks := insertA rt { li with timeout := tmo, created := now } ls.locks }) := by
  simp [lsLock, if_pos hrt, hli]

theorem lsLock_refresh_missing (ls : LockSystem) (p : String) (now tmo : Int)
    (rt tok : String) (hrt : rt ≠ "")
    (hli : lookupA rt ls.locks = none) :
    lsLock ls p now tmo rt tok = (.error .precondFailed412, ls) := by
  simp [lsLock, if_pos hrt, hli]

theorem lsLock_conflict (ls : LockSystem) (p : String) (now tmo : Int)
    (tok : String) (h : tokensAt ls p ≠ []) :
    lsLock ls p now tmo "" tok = (.error .locked423, ls) := by
  simp [lsLock, h]

theorem lsLock_new (ls : LockSystem) (p : String) (now tmo : Int)
    (tok : String) (h : tokensAt ls p = []) :
    lsLock ls p now tmo "" tok =
      (.ok ({ href := tok, root := p, timeout := tmo }, true),
       { locks := insertA tok { token := tok, root := p, created := now, timeout := tmo } ls.locks,
         paths := insertA p [tok] ls.paths }) := by
  simp [lsLock, h]

/-! ### The mutual-consistency invariant of the two indices -/

/-- The strengthened inductive invariant of `LockSystem`:
the claim's three mutual-consistency bullets plus the bookkeeping facts
(distinct map keys, duplicate-free token slices) that every reachable
state enjoys and that make the bullets inductive. -/
structure LSInv (ls : LockSystem) : Prop where
  tok_in_path : ∀ e ∈ ls.locks, e.1 ∈ tokensAt ls e.2.root
  path_tok_root : ∀ pe ∈ ls.paths, ∀ t ∈ pe.2,
    ∃ li, lookupA t ls.locks = some li ∧ li.root = pe.1
  nonempty : ∀ pe ∈ ls.paths, pe.2 ≠ []
  slice_nodup : ∀ pe ∈ ls.paths, pe.2.Nodup
  locks_nk : NodupKeys ls.locks
  paths_nk : NodupKeys ls.paths

theorem LSInv_init : LSInv { locks := [], paths := [] } := by
  constructor <;> simp [NodupKeys]

theorem removeFirst_eq_nil_of_mem {t : String} {l : List String}
    (h : removeFirst t l = []) (hm : t ∈ l) : l = [t] := by
  cases l with
  | nil => simp at hm
  | cons x xs =>
    simp only [removeFirst] at h
    by_cases hx : x = t
    · simp only [if_pos hx] at h
      subst h; subst hx; rfl
    · simp [if_neg hx] at h

/-- Removing a stale token (one with no record) from both indices is
invariant-preserving for any claimed root. -/
theorem LSInv_removeLock_stale {ls : LockSystem} (inv : LSInv ls)
    {tok : String} (h : lookupA tok ls.locks = none) (root : String) :
    LSInv (removeLock ls tok root) := by
  have htok_slice : ∀ pe ∈ ls.paths, tok ∉ pe.2 := by
    intro pe hpe hc
    rcases inv.path_tok_root pe hpe tok hc with ⟨li, hli, _⟩
    rw [h] at hli
    exact Option.noConfusion hli
  have hlocks : eraseA tok ls.locks = ls.locks := eraseA_eq_self_of_lookupA_none h
  have hts : tok ∉ (lookupA root ls.paths).getD [] := by
    cases hroot : lookupA root ls.paths with
    | none => simp
    | some ts =>
      simp only [Option.getD_some]
      exact htok_slice (root, ts) (mem_of_lookupA_eq_some hroot)
  have hrf : removeFirst tok ((lookupA root ls.paths).getD []) =
      (lookupA root ls.paths).getD [] := removeFirst_eq_self_of_not_mem hts
  simp only [removeLock, removeTokenFromPaths, hlocks, hrf]
  by_cases hempty : (lookupA root ls.paths).getD [] = ([] : List String)
  · rw [if_pos hempty]
    have hnone : lookupA root ls.paths = none := by
      cases hroot : lookupA root ls.paths with
      | none => rfl
      | some ts =>
        rw [hroot] at hempty
        simp only [Option.getD_some] at hempty
        exact absurd hempty (inv.nonempty (root, ts) (mem_of_lookupA_eq_some hroot))
    rw [eraseA_eq_self_of_lookupA_none hnone]
    exact inv
  · rw [if_neg hempty]
    have hsome : lookupA root ls.paths = some ((lookupA root ls.paths).getD []) := by
      cases hroot : lookupA root ls.paths with
      | none => rw [hroot] at hempty; simp at hempty
      | some ts => simp
    set ts := (lookupA root ls.paths).getD [] with hts_def
    have hmem_root : (root, ts) ∈ ls.paths := mem_of_lookupA_eq_some hsome
    have hlook : ∀ r, lookupA r (insertA root ts ls.paths) = lookupA r ls.paths := by
      intro r
      by_cases hr : root = r
      · subst hr
        rw [lookupA_insertA_self, hsome]
      · exact lookupA_insertA_ne hr ts ls.paths
    have hmem : ∀ pe ∈ insertA root ts ls.paths, pe ∈ ls.paths := by
      intro pe hpe
      rcases mem_insertA hpe with hpe | hpe
      · exact hpe ▸ hmem_root
      · exact hpe.1
    constructor
    · intro e he
      have := inv.tok_in_path e he
      simpa [tokensAt, hlook] using this
    · intro pe hpe t ht
      exact inv.path_tok_root pe (hmem pe hpe) t ht
    · intro pe hpe
      exact inv.nonempty pe (hmem pe hpe)
    · intro pe hpe
      exact inv.slice_nodup pe (hmem pe hpe)
    · exact inv.locks_nk
    · exact nodupKeys_insertA root ts inv.paths_nk

/-- Removing a live lock record (at its recorded root) from both indices
preserves the invariant. -/
theorem LSInv_removeLock_live {ls : LockSystem} (inv : LSInv ls)
    {tok : String} {li : LockInfo} (h : lookupA tok ls.locks = some li) :
    LSInv (removeLock ls tok li.root) := by
  have hmem : (tok, li) ∈ ls.locks := mem_of_lookupA_eq_some h
  have htok_ts : tok ∈ tokensAt ls li.root := inv.tok_in_path (tok, li) hmem
  have hsome : lookupA li.root ls.paths = some (tokensAt ls li.root) := by
    cases hroot : lookupA li.root ls.paths with
    | none => rw [tokensAt, hroot] at htok_ts; simp at htok_ts
    | some ts => simp [tokensAt, hroot]
  set ts := tokensAt ls li.root with hts_def
  have hmem_root : (li.root, ts) ∈ ls.paths := mem_of_lookupA_eq_some hsome
  have hnd_ts : ts.Nodup := inv.slice_nodup _ hmem_root
  set tsr := removeFirst tok ts with htsr_def
  have htok_not_tsr : tok ∉ tsr := htsr_def ▸ not_mem_removeFirst_of_nodup hnd_ts
  have hrtp : removeTokenFromPaths ls.paths li.root tok =
      if tsr = [] then eraseA li.root ls.paths else insertA li.root tsr ls.paths := by
    simp only [removeTokenFromPaths, hsome, Option.getD_some, htsr_def]
  by_cases hcase : tsr = []
  · have hsingle : ts = [tok] := removeFirst_eq_nil_of_mem (htsr_def ▸ hcase) htok_ts
    simp only [removeLock, hrtp, if_pos hcase]
    constructor
    · intro e he
      have hepre := (mem_eraseA he).1
      have hene := (mem_eraseA he).2
      have hpre := inv.tok_in_path e hepre
      by_cases hr : e.2.root = li.root
      · rw [hr, ← hts_def, hsingle] at hpre
        simp only [List.mem_singleton] at hpre
        exact absurd hpre hene
      · have : lookupA e.2.root (eraseA li.root ls.paths) = lookupA e.2.root ls.paths :=
          lookupA_eraseA_ne (fun hc => hr hc.symm) ls.paths
        simpa [tokensAt, this] using hpre
    · intro pe hpe t ht
      have hpepre := (mem_eraseA hpe).1
      have hpene := (mem_eraseA hpe).2
      rcases inv.path_tok_root pe hpepre t ht with ⟨li0, hli0, hroot0⟩
      have htne : t ≠ tok := by
        intro hc
        subst hc
        rw [h] at hli0
        rw [(Option.some.injEq _ _).mp hli0] at hpene
        exact hpene hroot0.symm
      refine ⟨li0, ?_, hroot0⟩
      rw [lookupA_eraseA_ne (fun hc => htne hc.symm) ls.locks]
      exact hli0
    · intro pe hpe
      exact inv.nonempty pe (mem_eraseA hpe).1
    · intro pe hpe
      exact inv.slice_nodup pe (mem_eraseA hpe).1
    · exact nodupKeys_eraseA tok inv.locks_nk
    · exact nodupKeys_eraseA li.root inv.paths_nk
  · simp only [removeLock, hrtp, if_neg hcase]
    constructor
    · intro e he
      have hepre := (mem_eraseA he).1
      have hene := (mem_eraseA he).2
      have hpre := inv.tok_in_path e hepre
      by_cases hr : e.2.root = li.root
      · have h1 : lookupA e.2.root (insertA li.root tsr ls.paths) = some tsr := by
          rw [hr]; exact lookupA_insertA_self li.root tsr ls.paths
        rw [hr, ← hts_def] at hpre
        have : e.1 ∈ tsr := htsr_def ▸ mem_removeFirst_of_mem_ne hpre hene
        simpa [tokensAt, h1] using this
      · have h1 : lookupA e.2.root (insertA li.root tsr ls.paths) = lookupA e.2.root ls.paths :=
          lookupA_insertA_ne (fun hc => hr hc.symm) tsr ls.paths
        simpa [tokensAt, h1] using hpre
    · intro pe hpe t ht
      rcases mem_insertA hpe with hpe | ⟨hpepre, hpene⟩
      · subst hpe
        simp only at ht
        have htmem : t ∈ ts := mem_of_mem_removeFirst (htsr_def ▸ ht)
        have htne : t ≠ tok := fun hc => htok_not_tsr (hc ▸ ht)
        rcases inv.path_tok_root (li.root, ts) hmem_root t htmem with ⟨li0, hli0, hroot0⟩
        refine ⟨li0, ?_, hroot0⟩
        rw [lookupA_eraseA_ne (fun hc => htne hc.symm) ls.locks]
        exact hli0
      · rcases inv.path_tok_root pe hpepre t ht with ⟨li0, hli0, hroot0⟩
        have htne : t ≠ tok := by
          intro hc
          subst hc
          rw [h] at hli0
          rw [(Option.some.injEq _ _).mp hli0] at hpene
          exact hpene hroot0.symm
        refine ⟨li0, ?_, hroot0⟩
        rw [lookupA_eraseA_ne (fun hc => htne hc.symm) ls.locks]
        exact hli0
    · intro pe hpe
      rcases mem_insertA hpe with hpe | ⟨hpepre, _⟩
      · subst hpe; exact hcase
      · exact inv.nonempty pe hpepre
    · intro pe hpe
      rcases mem_insertA hpe with hpe | ⟨hpepre, _⟩
      · subst hpe; exact htsr_def ▸ nodup_removeFirst hnd_ts
      · exact inv.slice_nodup pe hpepre
    · exact nodupKeys_eraseA tok inv.locks_nk
    · exact nodupKeys_insertA li.root tsr inv.paths_nk

theorem LSInv_unlock {ls : LockSystem} (inv : LSInv ls) (t : String) :
    LSInv (lsUnlock ls t).2 := by
  unfold lsUnlock
  cases h : lookupA t ls.locks with
  | none => exact inv
  | some li => exact LSInv_removeLock_live inv h

theorem LSInv_newLock {ls : LockSystem} (inv : LSInv ls) (p : String)
    (now tmo : Int) {tok : String} (hfresh : lookupA tok ls.locks = none) :
    LSInv (lsLock ls p now tmo "" tok).2 := by
  by_cases hc : tokensAt ls p = []
  · rw [lsLock_new ls p now tmo tok hc]
    constructor
    · intro e he
      rcases mem_insertA he with he | ⟨hepre, hene⟩
      · subst he
        simp [tokensAt, lookupA_insertA_self]
      · have hpre := inv.tok_in_path e hepre
        by_cases hr : e.2.root = p
        · rw [hr, hc] at hpre
          simp at hpre
        · have h1 : lookupA e.2.root (insertA p [tok] ls.paths) = lookupA e.2.root ls.paths :=
            lookupA_insertA_ne (fun hx => hr hx.symm) [tok] ls.paths
          simpa [tokensAt, h1] using hpre
    · intro pe hpe t ht
      rcases mem_insertA hpe with hpe | ⟨hpepre, hpene⟩
      · subst hpe
        simp only [List.mem_singleton] at ht
        rw [ht]
        exact ⟨_, lookupA_insertA_self tok _ ls.locks, rfl⟩
      · rcases inv.path_tok_root pe hpepre t ht with ⟨li0, hli0, hroot0⟩
        have htne : t ≠ tok := by
          intro hx
          subst hx
          rw [hfresh] at hli0
          exact Option.noConfusion hli0
        refine ⟨li0, ?_, hroot0⟩
        rw [lookupA_insertA_ne (fun hx => htne hx.symm) _ ls.locks]
        exact hli0
    · intro pe hpe
      rcases mem_insertA hpe with hpe | ⟨hpepre, _⟩
      · subst hpe; simp
      · exact inv.nonempty pe hpepre
    · intro pe hpe
      rcases mem_insertA hpe with hpe | ⟨hpepre, _⟩
      · subst hpe; simp
      · exact inv.slice_nodup pe hpepre
    · exact nodupKeys_insertA tok _ inv.locks_nk
    · exact nodupKeys_insertA p _ inv.paths_nk
  · rw [lsLock_conflict ls p now tmo tok hc]
    exact inv

theorem LSInv_refresh {ls : LockSystem} (inv : LSInv ls) (p : String)
    (now tmo : Int) (rt tok : String) (hrt : rt ≠ "") :
    LSInv (lsLock ls p now tmo rt tok).2 := by
  cases h : lookupA rt ls.locks with
  | none =>
    rw [lsLock_refresh_missing ls p now tmo rt tok hrt h]
    exact inv
  | some li =>
    rw [lsLock_refresh_found ls p now tmo rt tok hrt h]
    constructor
    · intro e he
      rcases mem_insertA he with he | ⟨hepre, hene⟩
      · subst he
        have := inv.tok_in_path (rt, li) (mem_of_lookupA_eq_some h)
        simpa [tokensAt] using this
      · have := inv.tok_in_path e hepre
        simpa [tokensAt] using this
    · intro pe hpe t ht
      rcases inv.path_tok_root pe hpe t ht with ⟨li0, hli0, hroot0⟩
      by_cases htr : t = rt
      · subst htr
        rw [h] at hli0
        refine ⟨{ li with timeout := tmo, created := now }, lookupA_insertA_self t _ ls.locks, ?_⟩
        rw [← (Option.some.injEq _ _).mp hli0] at hroot0
        exact hroot0
      · refine ⟨li0, ?_, hroot0⟩
        rw [lookupA_insertA_ne (fun hx => htr hx.symm) _ ls.locks]
        exact hli0
    · exact inv.nonempty
    · exact inv.slice_nodup
    · exact nodupKeys_insertA rt _ inv.locks_nk
    · exact inv.paths_nk

theorem LSInv_cleanFold {ls0 : LockSystem} (hnk : NodupKeys ls0.locks) (now : Int) :
    ∀ (es : List (String × LockInfo)) (ls : LockSystem),
      (∀ e ∈ es, e ∈ ls0.locks) → LSInv ls → (∀ f ∈ ls.locks, f ∈ ls0.locks) →
      LSInv (es.foldl (cleanStep now) ls) := by
  intro es
  induction es with
  | nil =>
    intro ls _ inv _
    simpa using inv
  | cons e rest ih =>
    intro ls hes inv hsub
    simp only [List.foldl_cons]
    have he0 : e ∈ ls0.locks := hes e (List.mem_cons_self _ _)
    have hstep : LSInv (cleanStep now ls e) ∧
        (∀ f ∈ (cleanStep now ls e).locks, f ∈ ls0.locks) := by
      unfold cleanStep
      by_cases hex : expiredLockInfo now e.2 = true
      · rw [if_pos hex]
        cases hl : lookupA e.1 ls.locks with
        | none =>
          exact ⟨LSInv_removeLock_stale inv hl e.2.root,
                 fun f hf => hsub f (mem_eraseA hf).1⟩
        | some li2 =>
          have hval : li2 = e.2 :=
            value_eq_of_nodupKeys hnk (hsub _ (mem_of_lookupA_eq_some hl)) he0
          rw [← hval]
          exact ⟨LSInv_removeLock_live inv hl,
                 fun f hf => hsub f (mem_eraseA hf).1⟩
      · rw [if_neg hex]
        exact ⟨inv, hsub⟩
    exact ih _ (fun f hf => hes f (List.mem_cons_of_mem _ hf)) hstep.1 hstep.2

theorem LSInv_clean {ls : LockSystem} (inv : LSInv ls) (now : Int) :
    LSInv (lsClean now ls) :=
  LSInv_cleanFold inv.locks_nk now ls.locks ls (fun _ h => h) inv (fun _ h => h)

/-- The lock-manager states reachable from the fresh system built by
`NewLockSystem` through completed `Lock` (new or refresh), `Unlock` and
`CleanExpiredLocks` calls.  A token minted by `generateToken` for a new
lock is assumed not to collide with a live token (the data model's
token-uniqueness guarantee). -/
inductive Reach : LockSystem → Prop where
  | init : Reach { locks := [], paths := [] }
  | stepNewLock (ls : LockSystem) (p : String) (now tmo : Int) (tok : String) :
      Reach ls → lookupA tok ls.locks = none → Reach (lsLock ls p now tmo "" tok).2
  | stepRefresh (ls : LockSystem) (p : String) (now tmo : Int) (rt tok : String) :
      Reach ls → rt ≠ "" → Reach (lsLock ls p now tmo rt tok).2
  | stepUnlock (ls : LockSystem) (t : String) : Reach ls → Reach (lsUnlock ls t).2
  | stepClean (ls : LockSystem) (now : Int) : Reach ls → Reach (lsClean now ls)

theorem Reach_LSInv {ls : LockSystem} (h : Reach ls) : LSInv ls := by
  induction h with
  | init => exact LSInv_init
  | stepNewLock ls p now tmo tok _ hfresh ih => exact LSInv_newLock ih p now tmo hfresh
  | stepRefresh ls p now tmo rt tok _ hrt ih => exact LSInv_refresh ih p now tmo rt tok hrt
  | stepUnlock ls t _ ih => exact LSInv_unlock ih t
  | stepClean ls now _ ih => exact LSInv_clean ih now

/-- The claim's mutual-consistency property of the two indices:
a token keys the token map exactly when it occurs in the path-index slice
of its record's root, every token listed under a path `p` belongs to a
record rooted at `p`, and no path maps to an empty slice. -/
def MutuallyConsistent (ls : LockSystem) : Prop :=
  (∀ e ∈ ls.locks, e.1 ∈ tokensAt ls e.2.root) ∧
  (∀ pe ∈ ls.paths, ∀ t ∈ pe.2,
    ∃ li, lookupA t ls.locks = some li ∧ li.root = pe.1) ∧
  (∀ pe ∈ ls.paths, pe.2 ≠ [])

/-! ## The specification's conflict rule (for comparison with the code) -/

/-- `a` is a strict ancestor path of `p`: `a` followed by a slash is a
prefix of `p` (so `"/a"` is an ancestor of `"/a/b"`). -/
def isAncestorPath (a p : String) : Bool :=
  (a.data ++ [Char.ofNat 47]).isPrefixOf p.data

/-- Does the path index hold at least one token for exactly `p`? -/
def lockedAt (ls : LockSystem) (p : String) : Bool :=
  !(tokensAt ls p).isEmpty

/-- Modelled from the spec (§4.5 conflict rule), for comparison with the
code's check.  The manager's records carry no scope and no depth — every
lock it advertises and mints is an exclusive write lock and the request
depth is never consulted — so the rule is interpreted with every held
lock exclusive and infinite-depth: a new request on `p` conflicts iff
(a)/(b) `p` itself holds a lock, (c) some ancestor of `p` holds a lock,
or (d) the request is infinite-depth and some descendant of `p` holds a
lock. -/
def specConflictRule (ls : LockSystem) (p : String) (reqInfiniteDepth : Bool) : Bool :=
  lockedAt ls p ||
  ls.paths.any (fun pe => !pe.2.isEmpty && isAncestorPath pe.1 p) ||
  (reqInfiniteDepth && ls.paths.any (fun pe => !pe.2.isEmpty && isAncestorPath p pe.1))

/-! ## What `CleanExpiredLocks` removes -/

theorem cleanStep_locks (now : Int) (ls : LockSystem) (e : String × LockInfo) :
    (cleanStep now ls e).locks =
      if expiredLockInfo now e.2 then eraseA e.1 ls.locks else ls.locks := by
  unfold cleanStep removeLock
  by_cases hex : expiredLockInfo now e.2 = true
  · rw [if_pos hex, if_pos hex]
  · rw [if_neg hex, if_neg hex]

theorem clean_fold_lookupA (now : Int) (t : String) :
    ∀ (es : List (String × LockInfo)) (ls : LockSystem),
      lookupA t (es.foldl (cleanStep now) ls).locks =
        if es.any (fun e => e.1 == t && expiredLockInfo now e.2) then none
        else lookupA t ls.locks := by
  intro es
  induction es with
  | nil =>
    intro ls
    simp
  | cons e rest ih =>
    intro ls
    simp only [List.foldl_cons, List.any_cons]
    rw [ih]
    by_cases hex : expiredLockInfo now e.2 = true
    · by_cases het : e.1 = t
      · have hstep : lookupA t (cleanStep now ls e).locks = none := by
          rw [cleanStep_locks, if_pos hex, ← het]
          exact lookupA_eraseA_self e.1 ls.locks
        simp [hstep, het, hex]
      · have hstep : lookupA t (cleanStep now ls e).locks = lookupA t ls.locks := by
          rw [cleanStep_locks, if_pos hex]
          exact lookupA_eraseA_ne het ls.locks
        have hbeq : (e.1 == t) = false := beq_eq_false_iff_ne.mpr het
        rw [hstep]
        simp only [hbeq, Bool.false_and, Bool.false_or]
    · have hexf : expiredLockInfo now e.2 = false := eq_false_of_ne_true hex
      have hstep : lookupA t (cleanStep now ls e).locks = lookupA t ls.locks := by
        rw [cleanStep_locks, if_neg hex]
      rw [hstep]
      simp only [hexf, Bool.and_false, Bool.false_or]

/-- On a state with distinct token keys, `CleanExpiredLocks` removes a
record exactly when it is expired and leaves every other record intact. -/
theorem lsClean_lookupA {ls : LockSystem} (hnk : NodupKeys ls.locks)
    (now : Int) (t : String) :
    lookupA t (lsClean now ls).locks =
      (lookupA t ls.locks).bind
        (fun li => if expiredLockInfo now li then none else some li) := by
  unfold lsClean
  rw [clean_fold_lookupA now t ls.locks ls]
  cases h : lookupA t ls.locks with
  | none =>
    have hany : ls.locks.any (fun e => e.1 == t && expiredLockInfo now e.2) = false := by
      rw [List.any_eq_false]
      intro e he
      have := (lookupA_eq_none_iff.mp h) e he
      simp [beq_eq_false_iff_ne.mpr this]
    simp [hany, h]
  | some li =>
    have hmem : (t, li) ∈ ls.locks := mem_of_lookupA_eq_some h
    by_cases hex : expiredLockInfo now li = true
    · have hany : ls.locks.any (fun e => e.1 == t && expiredLockInfo now e.2) = true := by
        rw [List.any_eq_true]
        exact ⟨(t, li), hmem, by simp [hex]⟩
      simp [hany, hex]
    · have hexf : expiredLockInfo now li = false := eq_false_of_ne_true hex
      have hany : ls.locks.any (fun e => e.1 == t && expiredLockInfo now e.2) = false := by
        rw [List.any_eq_false]
        intro e he
        by_cases het : e.1 = t
        · have : e.2 = li := by
            have h1 := lookupA_eq_some_of_mem hnk he
            rw [het, h] at h1
            exact ((Option.some.injEq _ _).mp h1).symm
          simp [this, hexf]
        · simp [beq_eq_false_iff_ne.mpr het]
      simp [hany, h, hexf]

/-! ## UNLOCK through the unnamed `Handler` (`handleUnlock`) -/

/-- Errors of the x/net-style lock-manager interface used by the unnamed
`Handler`: `ErrNoSuchLock`, `ErrForbidden`, `ErrLocked`. -/
inductive MemLSErr where
  | noSuchLock
  | forbidden
  | lockedErr
deriving DecidableEq, Repr

/-- Modelled from the spec: the x/net-style `LockSystem` implementation
behind the unnamed `Handler` is not under `src/` (only its interface's
callers are).  Per the UNLOCK contract of §4.5 it removes the lock from
both indices (token map and path index) and reports `ErrNoSuchLock` when
the token is unknown. -/
def memUnlock (ls : LockSystem) (t : String) : Option MemLSErr × LockSystem :=
  match lookupA t ls.locks with
  | none => (some .noSuchLock, ls)
  | some li => (none, removeLock ls t li.root)

/-- The Lock-Token header check of `Handler.handleUnlock`: a coded URL is
at least two characters and wrapped in angle brackets, which are
stripped.  (Go indexes bytes; on the ASCII brackets compared here the
byte and character views agree.) -/
def stripLockToken (t : String) : Option String :=
  if t.data.length < 2 ∨ t.data.head? ≠ some (Char.ofNat 60) ∨
      t.data.getLast? ≠ some (Char.ofNat 62) then none
  else some (String.mk ((t.data.drop 1).dropLast))

/-- `Handler.handleUnlock` from the unnamed handler file: 400 for a
malformed Lock-Token header, otherwise the lock system's verdict mapped
to 204 (removed), 403, 423, or 409 (`ErrNoSuchLock`). -/
def handleUnlock (ls : LockSystem) (hdr : String) : Nat × LockSystem :=
  match stripLockToken hdr with
  | none => (400, ls)
  | some t =>
    match memUnlock ls t with
    | (none, ls') => (204, ls')
    | (some .forbidden, ls') => (403, ls')
    | (some .lockedErr, ls') => (423, ls')
    | (some .noSuchLock, ls') => (409, ls')

/-! ## The local file-system backend (`fs_local.go`)

Resource paths are embedded as their slash-separated segment lists
(`[]` is the root `/`), after the `localPath` translation; the on-disk
tree is an association list from paths to entries.  The model carries no
modification times, so the modtime-derived fields of `FileInfo` stay at
their zero values. -/

/-- A resource path as its slash-separated segments. -/
abbrev DavPath := List String

/-- An on-disk entry: a directory or a regular file with its bytes. -/
inductive Entry where
  | dir
  | file (content : List Nat)
deriving DecidableEq, Repr

/-- The file-system state. -/
abbrev FS := List (DavPath × Entry)

/-- `filepath.Dir`: the parent path (the root is its own parent). -/
def parentPath (p : DavPath) : DavPath := p.dropLast

/-- `FileInfo` from `server.go`. -/
structure FileInfo where
  path : DavPath
  size : Int
  modTime : Int
  isDir : Bool
  mimeType : String
  etag : String
deriving DecidableEq, Repr

/-- `LocalFileSystem.Stat` (via `os.Stat` and `fileInfoFromOS`). -/
def statFS (fs : FS) (p : DavPath) : Option FileInfo :=
  match lookupA p fs with
  | some .dir =>
    some { path := p, size := 0, modTime := 0, isDir := true, mimeType := "", etag := "" }
  | some (.file c) =>
    some { path := p, size := (c.length : Int), modTime := 0, isDir := false,
           mimeType := "", etag := "" }
  | none => none

/-- Modelled from the spec: the `ConditionalMatch` header type is not
under `src/` (only its `IsSet`/`MatchETag` callers are).  Per §4.3 an
If-Match/If-None-Match value is unset, the wildcard `*`, or an entity
tag compared by strong equality. -/
inductive CondMatch where
  | unset
  | wildcard
  | etagIs (v : String)
deriving DecidableEq, Repr

/-- `ConditionalMatch.IsSet`. -/
def condIsSet : CondMatch → Bool
  | .unset => false
  | _ => true

/-- `ConditionalMatch.MatchETag` (strong equality, `*` matches any). -/
def condMatchETag (c : CondMatch) (etag : String) : Bool :=
  match c with
  | .unset => false
  | .wildcard => true
  | .etagIs v => v == etag

/-- `checkConditionalMatches` from `fs_local.go`: a set If-Match that
does not match, or a set If-None-Match that does, yields 412. -/
def checkCondMatches (fi : Option FileInfo) (ifMatch ifNoneMatch : CondMatch) :
    Option Nat :=
  let etag := match fi with
    | some f => f.etag
    | none => ""
  if condIsSet ifMatch && !condMatchETag ifMatch etag then some 412
  else if condIsSet ifNoneMatch && condMatchETag ifNoneMatch etag then some 412
  else none

/-- Categorized OS errors (`io/fs` sentinels and `syscall` errnos). -/
inductive OsErr where
  | notExist
  | permission
  | deadline
  | isDirectory
  | notDirectory
deriving DecidableEq, Repr

/-- Backend errors: an `internal.HTTPError` carrying a status code, or a
raw OS error passed through unclassified. -/
inductive HErr where
  | http (code : Nat)
  | os (e : OsErr)
deriving DecidableEq, Repr

/-- `errFromOS` from `fs_local.go`: not-exist, permission and deadline
errors map to 404, 403 and 503; anything else is returned raw. -/
def errFromOS : OsErr → HErr
  | .notExist => .http 404
  | .permission => .http 403
  | .deadline => .http 503
  | e => .os e

/-- The model of `os.Create` followed by `io.Copy` of the body: `EISDIR`
on an existing directory, `ENOENT` when the parent is missing, `ENOTDIR`
when the parent is a file; otherwise create or truncate the file with
the body as content. -/
def osCreateWrite (fs : FS) (p : DavPath) (body : List Nat) : Except OsErr FS :=
  match lookupA p fs with
  | some .dir => .error .isDirectory
  | _ =>
    match lookupA (parentPath p) fs with
    | none => .error .notExist
    | some (.file _) => .error .notDirectory
    | some .dir => .ok (insertA p (.file body) fs)

/-- `LocalFileSystem.Create` from `fs_local.go`: stat the target (the
`created` flag records its absence), check the conditional matches,
answer 409 when the parent collection does not exist, then write through
`os.Create` with other OS errors classified by `errFromOS`, and re-stat
the fresh file. -/
def localCreate (fs : FS) (name : DavPath) (body : List Nat)
    (ifMatch ifNoneMatch : CondMatch) : Except HErr (FS × FileInfo × Bool) :=
  let fi0 := statFS fs name
  let created := fi0.isNone
  match checkCondMatches fi0 ifMatch ifNoneMatch with
  | some code => .error (.http code)
  | none =>
    if lookupA (parentPath name) fs = none then .error (.http 409)
    else
      match osCreateWrite fs name body with
      | .error e => .error (errFromOS e)
      | .ok fs' =>
        match statFS fs' name with
        | none => .error (.http 404)
        | some fi => .ok (fs', fi, created)

/-- Is `p` at or below `anc` (segment-wise prefix)? -/
def underPath (anc p : DavPath) : Bool := anc.isPrefixOf p

/-- `os.RemoveAll`: delete the entry and its entire subtree. -/
def osRemoveAll (fs : FS) (p : DavPath) : FS :=
  fs.filter (fun e => !underPath p e.1)

/-- `LocalFileSystem.RemoveAll` from `fs_local.go`: WebDAV wants 404 for
a missing resource, so `Stat` first, then the conditional matches, then
`os.RemoveAll`. -/
def localRemoveAll (fs : FS) (name : DavPath) (ifMatch ifNoneMatch : CondMatch) :
    Except HErr FS :=
  match statFS fs name with
  | none => .error (.http 404)
  | some fi =>
    match checkCondMatches (some fi) ifMatch ifNoneMatch with
    | some code => .error (.http code)
    | none => .ok (osRemoveAll fs name)

/-- `copyRegularFile` from `fs_local.go`: open the source (its OS error
classified by `errFromOS`, so a vanished source gives 404), then
open-create-truncate the destination — a missing destination parent
(`ENOENT`) is mapped to 409 Conflict, other open errors are classified
by `errFromOS` (`ENOTDIR`/`EISDIR` stay raw) — and copy the bytes read
live from the source. -/
def copyRegularFileFS (fs : FS) (src dst : DavPath) : Except HErr FS :=
  match lookupA src fs with
  | none => .error (errFromOS .notExist)
  | some Entry.dir => .error (.os .isDirectory)
  | some (.file c) =>
    match lookupA (parentPath dst) fs with
    | none => .error (.http 409)
    | some (.file _) => .error (errFromOS .notDirectory)
    | some Entry.dir =>
      match lookupA dst fs with
      | some Entry.dir => .error (errFromOS .isDirectory)
      | _ => .ok (insertA dst (.file c) fs)

/-- All path prefixes of `p`, shortest first: the ancestor chain
`os.MkdirAll` establishes. -/
def pathPrefixes (p : DavPath) : List DavPath :=
  (List.range (p.length + 1)).map (fun n => p.take n)

/-- `os.MkdirAll`: create the directory and every missing ancestor;
fails with `ENOTDIR` when the path or one of its ancestors exists as a
regular file. -/
def mkdirAllFS (fs : FS) (p : DavPath) : Except OsErr FS :=
  if (pathPrefixes p).any (fun q =>
      match lookupA q fs with
      | some (.file _) => true
      | _ => false) then
    .error .notDirectory
  else
    .ok ((pathPrefixes p).foldl
      (fun acc q => if lookupA q acc = none then insertA q Entry.dir acc else acc) fs)

/-- Insertion (stable, by path length) used to visit walk entries with
parents before children, as `filepath.Walk`'s preorder guarantees. -/
def insertByLen (e : DavPath × Entry) : List (DavPath × Entry) → List (DavPath × Entry)
  | [] => [e]
  | f :: rest =>
    if e.1.length ≤ f.1.length then e :: f :: rest else f :: insertByLen e rest

/-- Sort walk entries shortest-path-first (parents before children). -/
def sortByLen (l : List (DavPath × Entry)) : List (DavPath × Entry) :=
  l.foldr insertByLen []

/-- One `walkFn` step of the copy walk from `LocalFileSystem.Copy`:
recreate a directory with `os.MkdirAll` (its error classified by
`errFromOS`) or copy a file with `copyRegularFile`, at the translated
destination path; an earlier error aborts the walk. -/
def walkStep (src dst : DavPath) (acc : Except HErr FS) (e : DavPath × Entry) :
    Except HErr FS :=
  match acc with
  | .error err => .error err
  | .ok fs =>
    match e.2 with
    | Entry.dir =>
      match mkdirAllFS fs (dst ++ e.1.drop src.length) with
      | .error oe => .error (errFromOS oe)
      | .ok fs2 => .ok fs2
    | .file _ => copyRegularFileFS fs e.1 (dst ++ e.1.drop src.length)

/-- A second `errFromOS` pass, as `LocalFileSystem.Copy` applies to the
walk's error: raw OS errors are classified, already-HTTP errors pass
through unchanged. -/
def errFromOSH : HErr → HErr
  | .os oe => errFromOS oe
  | .http c => .http c

/-- The `filepath.Walk` of the copy: fail with the source root's lstat
error when it is gone (so a source destroyed by the destination removal
gives `ENOENT` → 404), otherwise visit the source subtree (root
skipped, parents before children) running one `walkStep` per entry.
The Go walk reads directory listings from the live tree during the
copy; the model visits the subtree snapshot taken when the walk starts,
which coincides with the live listings whenever the destination does
not lie inside the source subtree (file contents are still read live at
each step). -/
def walkCopyTree (fs1 : FS) (src dst : DavPath) : Except HErr FS :=
  match lookupA src fs1 with
  | none => .error (errFromOS .notExist)
  | some _ =>
    (sortByLen (fs1.filter (fun e => underPath src e.1 && !(e.1 == src)))).foldl
      (walkStep src dst) (.ok fs1)

/-- The copy phase of `LocalFileSystem.Copy`, after its checks, with the
code's error paths: a file source runs one `copyRegularFile`; a
directory source runs `os.MkdirAll` on the destination and then, unless
`noRecursive`, the copy walk, whose error gets the outer `errFromOS`
pass. -/
def copyPhaseE (fs : FS) (src dst : DavPath) (srcEntry : Entry)
    (noRecursive : Bool) : Except HErr FS :=
  match srcEntry with
  | .file _ => copyRegularFileFS fs src dst
  | Entry.dir =>
    match mkdirAllFS fs dst with
    | .error oe => .error (errFromOS oe)
    | .ok fs1 =>
      if noRecursive then .ok fs1
      else
        match walkCopyTree fs1 src dst with
        | .error e => .error (errFromOSH e)
        | .ok fs2 => .ok fs2

/-- `LocalFileSystem.Copy` from `fs_local.go`: stat the source (missing
⇒ 404 through `errFromOS`), 409 when the destination's parent collection
is missing, 412 when the destination exists under `NoOverwrite`,
otherwise remove an existing destination recursively and run the copy
phase on the purged state; `created` reports whether the destination was
absent, and a copy-phase error is propagated with `created = false`. -/
def localCopy (fs : FS) (src dst : DavPath) (noOverwrite noRecursive : Bool) :
    Except HErr (Bool × FS) :=
  match lookupA src fs with
  | none => .error (errFromOS .notExist)
  | some srcEntry =>
    if lookupA (parentPath dst) fs = none then .error (.http 409)
    else
      match lookupA dst fs with
      | some _ =>
        if noOverwrite then .error (.http 412)
        else
          match copyPhaseE (osRemoveAll fs dst) src dst srcEntry noRecursive with
          | .error e => .error e
          | .ok fs2 => .ok (false, fs2)
      | none =>
        match copyPhaseE fs src dst srcEntry noRecursive with
        | .error e => .error e
        | .ok fs2 => .ok (true, fs2)

/-! ## The backend glue (`server.go`) -/

/-- An XML qualified name (`encoding/xml.Name`). -/
structure XmlName where
  space : String
  localName : String
deriving DecidableEq, Repr

/-- `internal.Namespace`, the `DAV:` namespace. -/
def davNamespace : String := "DAV:"

/-- The in-memory dead-property store of `backend`:
request path → (qualified name → stored text). -/
abbrev PropStore := List (DavPath × List (XmlName × String))

instance : DecidableEq (FS × PropStore) := instDecidableEqProd

instance : DecidableEq (Bool × FS) := instDecidableEqProd

/-- The placeholder `backend.PropPatch` stores when a set property's
element has no text content. -/
def emptyValuePlaceholder : String := "manynsvalue"

/-- One `<set>` property processed by `backend.PropPatch` (`server.go`):
a DAV: property gets a per-property 403 and the store is untouched; any
other property is stored under the request path, an empty text content
being replaced by the placeholder.  Returns the per-property status and
the new store. -/
def propPatchSet (ps : PropStore) (path : DavPath) (name : XmlName)
    (rawText : String) : Nat × PropStore :=
  if name.space = davNamespace then (403, ps)
  else
    let v := if rawText = "" then emptyValuePlaceholder else rawText
    (200, insertA path (insertA name v ((lookupA path ps).getD [])) ps)

/-- One `<remove>` property processed by `backend.PropPatch`. -/
def propPatchRemove (ps : PropStore) (path : DavPath) (name : XmlName) :
    Nat × PropStore :=
  if name.space = davNamespace then (403, ps)
  else (200, insertA path (eraseA name ((lookupA path ps).getD [])) ps)

/-- The dead-property lookup of `backend.propFindFile`: the text stored
for `name` on `path`, if any. -/
def propFindDeadProp (ps : PropStore) (path : DavPath) (name : XmlName) :
    Option String :=
  (lookupA path ps).bind (fun props => lookupA name props)

/-- `backend.Delete` from `server.go`: run the file system's `RemoveAll`
and, on success, drop the property-store entry for exactly the request
path. -/
def backendDelete (fs : FS) (ps : PropStore) (path : DavPath)
    (ifMatch ifNoneMatch : CondMatch) : Except HErr (FS × PropStore) :=
  match localRemoveAll fs path ifMatch ifNoneMatch with
  | .error e => .error e
  | .ok fs' => .ok (fs', eraseA path ps)

/-- `backend.Put` from `server.go`, downstream of the `Create` call: an
error propagates; otherwise answer 201 when `Create` reported the
resource as newly created and 204 otherwise. -/
def backendPut (createResult : Except HErr (FS × FileInfo × Bool)) :
    Except HErr Nat :=
  match createResult with
  | .error e => .error e
  | .ok (_, _, created) => .ok (if created then 201 else 204)

/-- PUT against the local file system: `backend.Put` over
`LocalFileSystem.Create`. -/
def putLocal (fs : FS) (name : DavPath) (body : List Nat)
    (ifMatch ifNoneMatch : CondMatch) : Except HErr Nat :=
  backendPut (localCreate fs name body ifMatch ifNoneMatch)

theorem checkCondMatches_unset (fi : Option FileInfo) :
    checkCondMatches fi .unset .unset = none := rfl

theorem statFS_eq_none_iff (fs : FS) (p : DavPath) :
    statFS fs p = none ↔ lookupA p fs = none := by
  unfold statFS
  cases h : lookupA p fs with
  | none => simp
  | some e => cases e <;> simp

/-! ## Remaining helper lemmas -/

theorem removeTokenFromPaths_not_mem {ls : LockSystem} (inv : LSInv ls)
    {t : String} {li : LockInfo} (hl : lookupA t ls.locks = some li) :
    ∀ pe ∈ removeTokenFromPaths ls.paths li.root t, t ∉ pe.2 := by
  have hmem0 : (t, li) ∈ ls.locks := mem_of_lookupA_eq_some hl
  have htok : t ∈ tokensAt ls li.root := inv.tok_in_path (t, li) hmem0
  have hsome : lookupA li.root ls.paths = some (tokensAt ls li.root) := by
    cases hroot : lookupA li.root ls.paths with
    | none => rw [tokensAt, hroot] at htok; simp at htok
    | some ts => simp [tokensAt, hroot]
  set ts := tokensAt ls li.root with hts_def
  have hnd : ts.Nodup := inv.slice_nodup (li.root, ts) (mem_of_lookupA_eq_some hsome)
  have hother : ∀ pe ∈ ls.paths, pe.1 ≠ li.root → t ∉ pe.2 := by
    intro pe hpe hne hc
    rcases inv.path_tok_root pe hpe t hc with ⟨li0, hli0, hroot0⟩
    rw [hl] at hli0
    have hle : li = li0 := (Option.some.injEq _ _).mp hli0
    rw [← hle] at hroot0
    exact hne hroot0.symm
  have hrtp : removeTokenFromPaths ls.paths li.root t =
      if removeFirst t ts = [] then eraseA li.root ls.paths
      else insertA li.root (removeFirst t ts) ls.paths := by
    simp only [removeTokenFromPaths, hsome, Option.getD_some]
  rw [hrtp]
  by_cases hcase : removeFirst t ts = []
  · rw [if_pos hcase]
    intro pe hpe
    exact hother pe (mem_eraseA hpe).1 (mem_eraseA hpe).2
  · rw [if_neg hcase]
    intro pe hpe
    rcases mem_insertA hpe with hpe | ⟨hpepre, hpene⟩
    · subst hpe
      exact not_mem_removeFirst_of_nodup hnd
    · exact hother pe hpepre hpene

theorem osRemoveAll_lookupA_none (fs : FS) (p q : DavPath)
    (h : underPath p q = true) : lookupA q (osRemoveAll fs p) = none := by
  rw [lookupA_eq_none_iff]
  intro e he hc
  have := (List.mem_filter.mp he).2
  rw [hc, h] at this
  simp at this

/-! ## Claim C1 — the LOCK conflict rule -/

/-- The lock state for the C1 counterexample: one lock rooted at `/a`. -/
def c1LS : LockSystem :=
  { locks := [("t1", { token := "t1", root := "/a", created := 0, timeout := 0 })],
    paths := [("/a", ["t1"])] }

/-- **C1**, counterexample: the spec's conflict rule demands 423 for a
new infinite-depth LOCK of `/a/b` while its ancestor `/a` holds an
(exclusive, infinite-depth) lock, but the lock manager consults only the
exact request path and grants the request, minting a fresh token. -/
theorem c1_counterexample :
    specConflictRule c1LS "/a/b" true = true ∧
    (lsLock c1LS "/a/b" 5 60 "" "t2").1 =
      .ok ({ href := "t2", root := "/a/b", timeout := 60 }, true) := by
  decide

/-- **C1** (amended): a non-refresh LOCK request is answered 423 exactly
when the path index holds a token for exactly the request path — lock
scope, request depth, ancestors and descendants are never consulted —
and otherwise the fresh token is minted and inserted into both indices. -/
theorem c1_lock_conflict_exact_path (ls : LockSystem) (p : String)
    (now tmo : Int) (tok : String) :
    ((lsLock ls p now tmo "" tok).1 = .error .locked423 ↔ tokensAt ls p ≠ []) ∧
    (tokensAt ls p = [] →
      lsLock ls p now tmo "" tok =
        (.ok ({ href := tok, root := p, timeout := tmo }, true),
         { locks := insertA tok { token := tok, root := p, created := now, timeout := tmo } ls.locks,
           paths := insertA p [tok] ls.paths })) := by
  by_cases hc : tokensAt ls p = []
  · constructor
    · rw [lsLock_new ls p now tmo tok hc]
      simp [hc]
    · intro _
      exact lsLock_new ls p now tmo tok hc
  · constructor
    · rw [lsLock_conflict ls p now tmo tok hc]
      simp [hc]
    · intro h
      exact absurd h hc

/-- **C1** witness: on the empty lock system a LOCK of `/a` mints and
inserts the token `t1`. -/
theorem c1_lock_witness :
    lsLock { locks := [], paths := [] } "/a" 0 60 "" "t1" =
      (.ok ({ href := "t1", root := "/a", timeout := 60 }, true),
       { locks := [("t1", { token := "t1", root := "/a", created := 0, timeout := 60 })],
         paths := [("/a", ["t1"])] }) :=
  ((c1_lock_conflict_exact_path { locks := [], paths := [] } "/a" 0 60 "t1").2 rfl).trans
    (by decide)

/-! ## Claim C2 — expired records -/

/-- The C2 state: a single lock on `/p`, created 0, timeout 5 — expired
at `now = 100`. -/
def c2ExpiredLS : LockSystem :=
  { locks := [("t1", { token := "t1", root := "/p", created := 0, timeout := 5 })],
    paths := [("/p", ["t1"])] }

/-- **C2**, counterexample: the record on `/p` is expired at `now = 100`,
yet a new LOCK of `/p` is still answered 423 (on the state with the
record absent it succeeds), the expired record can still be refreshed,
and it can still be unlocked — expired is observably different from
absent. -/
theorem c2_counterexample :
    expiredLockInfo 100 { token := "t1", root := "/p", created := 0, timeout := 5 } = true ∧
    (lsLock c2ExpiredLS "/p" 100 60 "" "t2").1 = .error .locked423 ∧
    (lsLock { locks := [], paths := [] } "/p" 100 60 "" "t2").1 =
      .ok ({ href := "t2", root := "/p", timeout := 60 }, true) ∧
    (lsLock c2ExpiredLS "/q" 100 60 "t1" "t9").1 =
      .ok ({ href := "t1", root := "/p", timeout := 60 }, false) ∧
    (lsUnlock c2ExpiredLS "t1").1 = none := by
  decide

/-- **C2** (amended): expired records stay visible to the client-facing
operations until `CleanExpiredLocks` runs; `CleanExpiredLocks` removes
from the token index exactly the records with a non-zero timeout whose
creation instant plus timeout lies strictly in the past, and keeps every
other record unchanged. -/
theorem c2_clean_removes_exactly_expired (ls : LockSystem) (now : Int)
    (t : String) (hnk : NodupKeys ls.locks) :
    lookupA t (lsClean now ls).locks =
      (lookupA t ls.locks).bind
        (fun li => if expiredLockInfo now li then none else some li) :=
  lsClean_lookupA hnk now t

/-- **C2** witness: cleaning the expired-lock state at `now = 100`
removes the record. -/
theorem c2_clean_witness :
    NodupKeys c2ExpiredLS.locks ∧
    lookupA "t1" (lsClean 100 c2ExpiredLS).locks = none := by
  refine ⟨by decide, ?_⟩
  rw [c2_clean_removes_exactly_expired c2ExpiredLS 100 "t1" (by decide)]
  decide

/-! ## Claim C9 — mutual consistency of the two indices -/

/-- **C9**: after every completed `Lock`, `Unlock` or
`CleanExpiredLocks` call — i.e. in every reachable lock-manager state —
the token map and the path index are mutually consistent. -/
theorem c9_indices_consistent {ls : LockSystem} (h : Reach ls) :
    MutuallyConsistent ls :=
  ⟨(Reach_LSInv h).tok_in_path, (Reach_LSInv h).path_tok_root,
   (Reach_LSInv h).nonempty⟩

/-- **C9** witness: the state after a LOCK, a refresh, an UNLOCK and a
sweep from the fresh system is reachable and hence consistent. -/
theorem c9_witness :
    MutuallyConsistent
      (lsClean 40
        (lsUnlock
          (lsLock (lsLock { locks := [], paths := [] } "/a" 0 60 "" "t1").2
            "/a" 10 30 "t1" "t9").2 "t1").2) :=
  c9_indices_consistent
    (Reach.stepClean _ 40
      (Reach.stepUnlock _ "t1"
        (Reach.stepRefresh _ "/a" 10 30 "t1" "t9"
          (Reach.stepNewLock { locks := [], paths := [] } "/a" 0 60 "t1" Reach.init rfl)
          (by decide))))

/-! ## Claim C10 — lock refresh -/

/-- The C10 state: two locks on distinct roots. -/
def c10LS : LockSystem :=
  { locks := [("t1", { token := "t1", root := "/r", created := 0, timeout := 9 }),
              ("t2", { token := "t2", root := "/s", created := 0, timeout := 9 })],
    paths := [("/r", ["t1"]), ("/s", ["t2"])] }

/-- **C10**: a Lock call carrying a non-empty refresh token that names an
existing record succeeds with `created = false`, replacing the record's
timeout with the supplied one and resetting its creation instant to the
current time while keeping its token and root; no conflict check is run
and the request path is never consulted (the call's result is identical
for any two request paths and minted-token candidates). -/
theorem c10_refresh (ls : LockSystem) (p q : String) (now tmo : Int)
    (rt tok tok2 : String) (hrt : rt ≠ "") {li : LockInfo}
    (hli : lookupA rt ls.locks = some li) :
    lsLock ls p now tmo rt tok =
      (.ok ({ href := li.token, root := li.root, timeout := tmo }, false),
       { ls with locks := insertA rt { li with timeout := tmo, created := now } ls.locks }) ∧
    lsLock ls p now tmo rt tok = lsLock ls q now tmo rt tok2 := by
  refine ⟨lsLock_refresh_found ls p now tmo rt tok hrt hli, ?_⟩
  rw [lsLock_refresh_found ls p now tmo rt tok hrt hli,
      lsLock_refresh_found ls q now tmo rt tok2 hrt hli]

/-- **C10** witness: refreshing `t1` through a request on the
differently-locked path `/s` succeeds with no conflict check, updating
only the record's timeout and creation instant. -/
theorem c10_refresh_witness :
    lsLock c10LS "/s" 50 70 "t1" "tX" =
      (.ok ({ href := "t1", root := "/r", timeout := 70 }, false),
       { locks := [("t1", { token := "t1", root := "/r", created := 50, timeout := 70 }),
                   ("t2", { token := "t2", root := "/s", created := 0, timeout := 9 })],
         paths := [("/r", ["t1"]), ("/s", ["t2"])] }) := by
  have h := (c10_refresh c10LS "/s" "/q" 50 70 "t1" "tX" "tY" (by decide)
    (show lookupA "t1" c10LS.locks =
        some { token := "t1", root := "/r", created := 0, timeout := 9 } by decide)).1
  rw [h]
  decide

/-! ## Claim C3 — UNLOCK -/

/-- The C3 state: one live lock `t1` rooted at `/r`. -/
def c3LS : LockSystem :=
  { locks := [("t1", { token := "t1", root := "/r", created := 0, timeout := 0 })],
    paths := [("/r", ["t1"])] }

/-- **C3**: `handleUnlock` answers 400 for a syntactically invalid
Lock-Token header (not an angle-bracketed coded URL); for a well-formed
token unknown to the lock manager it answers 409 with the state
unchanged; for a known token it answers 204 and the lock is removed from
both the token index and the path index. -/
theorem c3_handleUnlock (ls : LockSystem) (hdr : String) :
    (stripLockToken hdr = none → handleUnlock ls hdr = (400, ls)) ∧
    (∀ t, stripLockToken hdr = some t → lookupA t ls.locks = none →
      handleUnlock ls hdr = (409, ls)) ∧
    (∀ t li, stripLockToken hdr = some t → lookupA t ls.locks = some li →
      LSInv ls →
      (handleUnlock ls hdr).1 = 204 ∧
      lookupA t (handleUnlock ls hdr).2.locks = none ∧
      ∀ pe ∈ (handleUnlock ls hdr).2.paths, t ∉ pe.2) := by
  refine ⟨?_, ?_, ?_⟩
  · intro h
    simp [handleUnlock, h]
  · intro t ht hl
    simp [handleUnlock, ht, memUnlock, hl]
  · intro t li ht hl inv
    have hred : handleUnlock ls hdr = (204, removeLock ls t li.root) := by
      simp [handleUnlock, ht, memUnlock, hl]
    rw [hred]
    exact ⟨rfl, lookupA_eraseA_self t ls.locks,
           removeTokenFromPaths_not_mem inv hl⟩

/-- **C3** witness: a bracketless header gives 400, an unknown token
409, and unlocking the live token `t1` gives 204. -/
theorem c3_handleUnlock_witness :
    handleUnlock c3LS "t1" = (400, c3LS) ∧
    handleUnlock c3LS "<zz>" = (409, c3LS) ∧
    (handleUnlock c3LS "<t1>").1 = 204 := by
  have hinv : LSInv c3LS :=
    Reach_LSInv
      (Reach.stepNewLock { locks := [], paths := [] } "/r" 0 0 "t1" Reach.init rfl)
  exact ⟨(c3_handleUnlock c3LS "t1").1 (by decide),
         (c3_handleUnlock c3LS "<zz>").2.1 "zz" (by decide) (by decide),
         ((c3_handleUnlock c3LS "<t1>").2.2 "t1"
            { token := "t1", root := "/r", created := 0, timeout := 0 }
            (by decide) (by decide) hinv).1⟩

/-! ## Claim C5 — Create error mapping -/

theorem osCreateWrite_ok (fs : FS) (p : DavPath) (body : List Nat)
    (hnd : lookupA p fs ≠ some Entry.dir)
    (hpar : lookupA (parentPath p) fs = some Entry.dir) :
    osCreateWrite fs p body = .ok (insertA p (.file body) fs) := by
  unfold osCreateWrite
  cases h : lookupA p fs with
  | none => rw [hpar]
  | some e =>
    cases e with
    | dir => exact absurd h hnd
    | file c => rw [hpar]

/-- **C5**, counterexample: `Create` over the existing collection `/d`
does not fail with 405 — the raw `EISDIR` error is passed through
unclassified by `errFromOS`, with no HTTP status attached. -/
theorem c5_counterexample :
    localCreate [(([] : DavPath), Entry.dir), ((["d"] : DavPath), Entry.dir)]
        ["d"] [] .unset .unset = .error (.os .isDirectory) ∧
    HErr.os .isDirectory ≠ .http 405 := by
  decide

/-- **C5** (amended): `Create` answers 409 Conflict when the parent
collection of the target does not exist; when the target exists and is a
collection the call fails, but with the unclassified `EISDIR` OS error
rather than 405. -/
theorem c5_create_errors (fs : FS) (name : DavPath) (body : List Nat) :
    (lookupA (parentPath name) fs = none →
      localCreate fs name body .unset .unset = .error (.http 409)) ∧
    (lookupA name fs = some Entry.dir → lookupA (parentPath name) fs ≠ none →
      localCreate fs name body .unset .unset = .error (.os .isDirectory)) := by
  constructor
  · intro hpar
    simp only [localCreate, checkCondMatches_unset]
    rw [if_pos hpar]
  · intro hdir hpar
    simp only [localCreate, checkCondMatches_unset]
    rw [if_neg hpar]
    have hos : osCreateWrite fs name body = .error .isDirectory := by
      unfold osCreateWrite
      rw [hdir]
    rw [hos]
    rfl

/-- **C5** witness: a PUT target under the missing collection `/m` gives
409; a target that is the existing collection `/d` gives the raw EISDIR
error. -/
theorem c5_create_errors_witness :
    localCreate [(([] : DavPath), Entry.dir)] ["m", "b"] [7] .unset .unset =
      .error (.http 409) ∧
    localCreate [(([] : DavPath), Entry.dir), ((["d"] : DavPath), Entry.dir)]
        ["d"] [7] .unset .unset = .error (.os .isDirectory) :=
  ⟨(c5_create_errors _ _ _).1 (by decide),
   (c5_create_errors _ _ _).2 (by decide) (by decide)⟩

/-! ## Claim C4 — PUT status codes -/

theorem localCreate_unset_ok (fs : FS) (name : DavPath) (body : List Nat)
    (hpar : lookupA (parentPath name) fs = some Entry.dir)
    (hnd : lookupA name fs ≠ some Entry.dir) :
    localCreate fs name body .unset .unset =
      .ok (insertA name (.file body) fs,
           { path := name, size := (body.length : Int), modTime := 0,
             isDir := false, mimeType := "", etag := "" },
           (lookupA name fs).isNone) := by
  have hpar' : ¬lookupA (parentPath name) fs = none := by
    rw [hpar]; intro hc; exact Option.noConfusion hc
  have hcreated : (statFS fs name).isNone = (lookupA name fs).isNone := by
    unfold statFS
    cases h : lookupA name fs with
    | none => simp
    | some e => cases e <;> simp
  have hstat' : statFS (insertA name (.file body) fs) name =
      some { path := name, size := (body.length : Int), modTime := 0,
             isDir := false, mimeType := "", etag := "" } := by
    unfold statFS
    rw [lookupA_insertA_self]
  simp only [localCreate, checkCondMatches_unset]
  rw [if_neg hpar', osCreateWrite_ok fs name body hnd hpar]
  simp only [hstat', hcreated]

/-- **C4**: a PUT that succeeds answers 201 exactly when the `Create`
call reported the target as newly created and 204 when it reported an
existing resource overwritten — both for an arbitrary successful
`Create` result and for PUT composed with `LocalFileSystem.Create`,
where `created` is the prior absence of the target. -/
theorem c4_put_status (fs : FS) (name : DavPath) (body : List Nat) :
    (∀ (fs' : FS) (fi : FileInfo) (created : Bool),
      backendPut (.ok (fs', fi, created)) = .ok (if created then 201 else 204)) ∧
    (lookupA (parentPath name) fs = some Entry.dir →
      lookupA name fs ≠ some Entry.dir →
      putLocal fs name body .unset .unset =
        .ok (if lookupA name fs = none then 201 else 204)) := by
  refine ⟨fun _ _ _ => rfl, ?_⟩
  intro hpar hnd
  unfold putLocal
  rw [localCreate_unset_ok fs name body hpar hnd]
  by_cases hn : lookupA name fs = none
  · simp [backendPut, hn]
  · simp [backendPut, hn, Option.isNone_iff_eq_none]

/-- **C4** witness: PUT of a fresh `/f` answers 201; PUT over the
existing file `/g` answers 204. -/
theorem c4_put_status_witness :
    putLocal [(([] : DavPath), Entry.dir)] ["f"] [1] .unset .unset = .ok 201 ∧
    putLocal [(([] : DavPath), Entry.dir), ((["g"] : DavPath), Entry.file [9])]
        ["g"] [1] .unset .unset = .ok 204 := by
  have h1 := (c4_put_status [(([] : DavPath), Entry.dir)] ["f"] [1]).2
    (by decide) (by decide)
  have h2 := (c4_put_status
    [(([] : DavPath), Entry.dir), ((["g"] : DavPath), Entry.file [9])] ["g"] [1]).2
    (by decide) (by decide)
  rw [h1, h2]
  exact ⟨by decide, by decide⟩

/-! ## Claim C6 — Copy -/

/-- **C6**: `Copy` answers 404 for a missing source, 409 for a missing
destination parent, 412 when the destination exists under
`NoOverwrite`; when the destination exists without `NoOverwrite`, the
destination subtree is recursively removed first and the copy phase
(with its own error paths) runs on the purged state — nothing at or
below the destination survives into the copy — and in particular a file
source lying inside the removed destination is gone by copy time, so
the call fails with 404. -/
theorem c6_copy (fs : FS) (src dst : DavPath) (noOv noRec : Bool) :
    (lookupA src fs = none → localCopy fs src dst noOv noRec = .error (.http 404)) ∧
    (lookupA src fs ≠ none → lookupA (parentPath dst) fs = none →
      localCopy fs src dst noOv noRec = .error (.http 409)) ∧
    (lookupA src fs ≠ none → lookupA (parentPath dst) fs ≠ none →
      lookupA dst fs ≠ none → noOv = true →
      localCopy fs src dst noOv noRec = .error (.http 412)) ∧
    (∀ srcE, lookupA src fs = some srcE → lookupA (parentPath dst) fs ≠ none →
      lookupA dst fs ≠ none → noOv = false →
      localCopy fs src dst noOv noRec =
        (match copyPhaseE (osRemoveAll fs dst) src dst srcE noRec with
         | .error e => .error e
         | .ok fs2 => .ok (false, fs2)) ∧
      ∀ q, underPath dst q = true → lookupA q (osRemoveAll fs dst) = none) ∧
    (∀ c, lookupA src fs = some (.file c) → lookupA (parentPath dst) fs ≠ none →
      lookupA dst fs ≠ none → noOv = false → underPath dst src = true →
      localCopy fs src dst noOv noRec = .error (.http 404)) := by
  refine ⟨?_, ?_, ?_, ?_, ?_⟩
  · intro h
    simp [localCopy, h, errFromOS]
  · intro hsrc hpar
    cases hx : lookupA src fs with
    | none => exact absurd hx hsrc
    | some e =>
      simp only [localCopy, hx]
      rw [if_pos hpar]
  · intro hsrc hpar hdst hov
    cases hx : lookupA src fs with
    | none => exact absurd hx hsrc
    | some e =>
      simp only [localCopy, hx]
      rw [if_neg hpar]
      cases hd : lookupA dst fs with
      | none => exact absurd hd hdst
      | some d =>
        subst hov
        simp
  · intro srcE hsrc hpar hdst hov
    subst hov
    cases hd : lookupA dst fs with
    | none => exact absurd hd hdst
    | some d =>
      refine ⟨?_, fun q hq => osRemoveAll_lookupA_none fs dst q hq⟩
      simp only [localCopy, hsrc, hd]
      rw [if_neg hpar]
      simp
  · intro c hsrc hpar hdst hov hunder
    subst hov
    cases hd : lookupA dst fs with
    | none => exact absurd hd hdst
    | some d =>
      have hgone : lookupA src (osRemoveAll fs dst) = none :=
        osRemoveAll_lookupA_none fs dst src hunder
      have hph : copyPhaseE (osRemoveAll fs dst) src dst (.file c) noRec =
          .error (.http 404) := by
        simp only [copyPhaseE, copyRegularFileFS, hgone]
        rfl
      simp only [localCopy, hsrc, hd]
      rw [if_neg hpar]
      simp [hph]

/-- The C6 witness tree: source collection `/s` with child file `/s/f`,
and existing destination `/t` holding a stale child `/t/old`. -/
def c6FS : FS :=
  [([], Entry.dir), (["s"], Entry.dir), (["s", "f"], Entry.file [1]),
   (["t"], Entry.dir), (["t", "old"], Entry.file [2])]

/-- The C6 overlap tree: the file `/t/x` inside the destination `/t`. -/
def c6OverlapFS : FS :=
  [([], Entry.dir), (["t"], Entry.dir), (["t", "x"], Entry.file [3])]

/-- **C6** witness: the five behaviours at concrete inputs — 404, 409,
412, the overwrite copy on the purged state (which concretely succeeds,
replacing the stale child `/t/old` with the copied `/t/f`), and the 404
when the source `/t/x` sits inside the overwritten destination `/t`. -/
theorem c6_copy_witness :
    localCopy c6FS ["x"] ["y"] false false = .error (.http 404) ∧
    localCopy c6FS ["s"] ["m", "y"] false false = .error (.http 409) ∧
    localCopy c6FS ["s"] ["t"] true false = .error (.http 412) ∧
    (localCopy c6FS ["s"] ["t"] false false =
      (match copyPhaseE (osRemoveAll c6FS ["t"]) ["s"] ["t"] Entry.dir false with
       | .error e => .error e
       | .ok fs2 => .ok (false, fs2))) ∧
    lookupA (["t", "old"] : DavPath) (osRemoveAll c6FS ["t"]) = none ∧
    (localCopy c6FS ["s"] ["t"] false false).toOption.map
        (fun r => (r.1, lookupA ["t", "old"] r.2, lookupA ["t", "f"] r.2)) =
      some (false, none, some (Entry.file [1])) ∧
    localCopy c6OverlapFS ["t", "x"] ["t"] false false = .error (.http 404) := by
  have h4 := (c6_copy c6FS ["s"] ["t"] false false).2.2.2.1
    Entry.dir (by decide) (by decide) (by decide) rfl
  exact ⟨(c6_copy _ _ _ _ _).1 (by decide),
         (c6_copy _ _ _ _ _).2.1 (by decide) (by decide),
         (c6_copy _ _ _ _ _).2.2.1 (by decide) (by decide) (by decide) rfl,
         h4.1, h4.2 ["t", "old"] (by decide),
         by decide,
         (c6_copy c6OverlapFS ["t", "x"] ["t"] false false).2.2.2.2 [3]
           (by decide) (by decide) (by decide) rfl (by decide)⟩

/-! ## Claim C7 — DELETE and the property store -/

/-- The C7 file tree: the collection `/d` with child `/d/f`. -/
def c7FS : FS := [([], Entry.dir), (["d"], Entry.dir), (["d", "f"], Entry.file [])]

/-- The C7 property store: dead properties on `/d` and on `/d/f`. -/
def c7PS : PropStore :=
  [((["d"] : DavPath), [({ space := "urn:x", localName := "a" }, "v")]),
   ((["d", "f"] : DavPath), [({ space := "urn:x", localName := "b" }, "w")])]

/-- **C7**, counterexample: DELETE of the collection `/d` succeeds and
drops the store entry for `/d`, but the entry for its descendant `/d/f`
survives in the store. -/
theorem c7_counterexample :
    (backendDelete c7FS c7PS ["d"] .unset .unset).toOption.map
        (fun r => (lookupA ["d"] r.2, lookupA ["d", "f"] r.2)) =
      some (none, some [({ space := "urn:x", localName := "b" }, "w")]) ∧
    underPath ["d"] ["d", "f"] = true := by
  decide

/-- **C7** (amended): a successful DELETE drops the property-store entry
for exactly the request path and leaves every other entry — descendant
entries included — unchanged. -/
theorem c7_delete_prop_entry (fs : FS) (ps : PropStore) (p : DavPath)
    (ifM ifNM : CondMatch) (fs' : FS) (ps' : PropStore)
    (h : backendDelete fs ps p ifM ifNM = .ok (fs', ps')) :
    lookupA p ps' = none ∧ ∀ q, q ≠ p → lookupA q ps' = lookupA q ps := by
  unfold backendDelete at h
  cases hrem : localRemoveAll fs p ifM ifNM with
  | error e =>
    rw [hrem] at h
    exact Except.noConfusion h
  | ok fs2 =>
    rw [hrem] at h
    simp only [Except.ok.injEq, Prod.mk.injEq] at h
    rw [← h.2]
    exact ⟨lookupA_eraseA_self p ps,
           fun q hq => lookupA_eraseA_ne (fun hc => hq hc.symm) ps⟩

/-- **C7** witness: after the successful DELETE of `/d`, the entry for
`/d` is gone while the entry for `/d/f` still reads back unchanged. -/
theorem c7_delete_witness :
    lookupA (["d"] : DavPath) (eraseA (["d"] : DavPath) c7PS) = none ∧
    lookupA (["d", "f"] : DavPath) (eraseA (["d"] : DavPath) c7PS) =
      lookupA (["d", "f"] : DavPath) c7PS := by
  have h := c7_delete_prop_entry c7FS c7PS ["d"] .unset .unset
    (osRemoveAll c7FS ["d"]) (eraseA ["d"] c7PS) (by decide)
  exact ⟨h.1, h.2 ["d", "f"] (by decide)⟩

/-! ## Claim C8 — PROPPATCH / PROPFIND round trip -/

/-- **C8**, counterexample: a PROPPATCH set whose property element has
empty text content stores the placeholder, so the subsequent PROPFIND
returns `"manynsvalue"` rather than text byte-identical to the supplied
(empty) value. -/
theorem c8_counterexample :
    propFindDeadProp
        (propPatchSet [] ["a"] { space := "urn:x", localName := "p" } "").2
        ["a"] { space := "urn:x", localName := "p" } = some emptyValuePlaceholder ∧
    emptyValuePlaceholder ≠ "" ∧
    ({ space := "urn:x", localName := "p" } : XmlName).space ≠ davNamespace := by
  decide

/-- **C8** (amended): for a property outside the DAV: namespace and a
non-empty value text, a successful PROPPATCH set (per-property status
200) stores the text and a subsequent PROPFIND of that property returns
it byte-identical. -/
theorem c8_roundtrip (ps : PropStore) (path : DavPath) (name : XmlName)
    (v : String) (hns : name.space ≠ davNamespace) (hv : v ≠ "") :
    (propPatchSet ps path name v).1 = 200 ∧
    propFindDeadProp (propPatchSet ps path name v).2 path name = some v := by
  unfold propPatchSet
  rw [if_neg hns, if_neg hv]
  exact ⟨rfl, by simp [propFindDeadProp, lookupA_insertA_self]⟩

/-- **C8** witness: setting `{urn:x}p = "val"` and reading it back. -/
theorem c8_roundtrip_witness :
    (propPatchSet [] ["a"] { space := "urn:x", localName := "p" } "val").1 = 200 ∧
    propFindDeadProp
        (propPatchSet [] ["a"] { space := "urn:x", localName := "p" } "val").2
        ["a"] { space := "urn:x", localName := "p" } = some "val" :=
  c8_roundtrip [] ["a"] { space := "urn:x", localName := "p" } "val"
    (by decide) (by decide)

end FiberWebdav
